import Mathlib

/-! Formal model of the opencode-rtk command rewrite engine.

Commands are modelled as lists of characters (`Str`).  Each definition
mirrors one function of the plugin source: `shouldWrap`, `isSimpleCommand`,
`rewriteCommand`, and the guard chain of the `tool.execute.before` hook
(modelled as `Rtk.decide`).  The JavaScript string primitives the source
uses — `trim`, `split` on runs of whitespace, `startsWith`, the
first-occurrence string `replace`, and the regex `test` — are embedded as
the corresponding functions on character lists.  The `rewriteMap` object
is embedded as an association list with string keys and values.
-/

namespace Rtk

/-- Strings are modelled as lists of characters. -/
abbrev Str := List Char

/-- Whitespace, as used by the JavaScript `trim` and the regex class `\s`
(restricted here to the ASCII whitespace characters that appear in shell
commands). -/
def isWs (c : Char) : Bool := c == ' ' || c == '\t' || c == '\n' || c == '\r'

/-- Remove leading whitespace. -/
def trimLeft (s : Str) : Str := s.dropWhile isWs

/-- Remove trailing whitespace. -/
def trimRight (s : Str) : Str := (s.reverse.dropWhile isWs).reverse

/-- JavaScript `String.prototype.trim`: remove whitespace at both ends. -/
def trim (s : Str) : Str := trimRight (trimLeft s)

/-- JavaScript `trimmed.split(/\s+/)[0]` applied to a string with no
leading whitespace (the source always applies it to a trimmed string):
the maximal leading run of non-whitespace characters. -/
def firstWord (s : Str) : Str := s.takeWhile (fun c => !isWs c)

/-- JavaScript `String.prototype.startsWith`. -/
def startsWith (s p : Str) : Bool := p.isPrefixOf s

/-- Source `shouldWrap(command, patterns)`: trims the command and tests
whether some pattern equals it or is a prefix of it followed by a space. -/
def shouldWrap (command : Str) (patterns : List Str) : Bool :=
  patterns.any fun pattern =>
    trim command == pattern || startsWith (trim command) (pattern ++ [' '])

/-- Containment of `pat` as a contiguous substring of `s`; used to embed
the regex alternatives of the source's safety test. -/
def containsSub : Str → Str → Bool
  | [], pat => pat.isEmpty
  | c :: rest, pat => pat.isPrefixOf (c :: rest) || containsSub rest pat

/-- Source `isSimpleCommand(command)`: the negated regex test
`!/[|;]|&&|\|\||<</.test(command)`.  The regex matches iff the command
contains the character `|`, the character `;`, or one of the two-character
sequences `&&`, `||`, `<<`. -/
def isSimpleCommand (command : Str) : Bool :=
  !(command.contains '|' || command.contains ';' || containsSub command "&&".data ||
    containsSub command "||".data || containsSub command "<<".data)

/-- JavaScript `key in obj` on the rewrite map (own string keys). -/
def mapHasKey (m : List (Str × Str)) (k : Str) : Bool :=
  m.any fun kv => kv.1 == k

/-- JavaScript `obj[key]` on the rewrite map, defined on present keys. -/
def mapGet (m : List (Str × Str)) (k : Str) : Str :=
  match m.find? (fun kv => kv.1 == k) with
  | some kv => kv.2
  | none => []

/-- JavaScript `String.prototype.replace` with string arguments: replace
the first (leftmost) occurrence of `pat` in `s` by `rep`, returning `s`
unchanged when `pat` does not occur. -/
def replaceFirst : Str → Str → Str → Str
  | [], pat, rep => if pat.isEmpty then rep else []
  | c :: rest, pat, rep =>
    if pat.isPrefixOf (c :: rest) then rep ++ (c :: rest).drop pat.length
    else c :: replaceFirst rest pat rep

/-- The compressor invocation token followed by a space, `"rtk "`. -/
def rtkSpace : Str := "rtk ".data

/-- Source `rewriteCommand(command, rewriteMap)`: trim, extract the first
word; if it is a key of the rewrite map, replace its first occurrence by
the mapped value, otherwise prepend the compressor token `rtk` and a
space. -/
def rewriteCommand (command : Str) (rewriteMap : List (Str × Str)) : Str :=
  if mapHasKey rewriteMap (firstWord (trim command)) then
    replaceFirst (trim command) (firstWord (trim command))
      (mapGet rewriteMap (firstWord (trim command)))
  else
    rtkSpace ++ trim command

/-- Configuration record of the plugin (`RtkConfig` in the source). -/
structure RtkConfig where
  enabled : Bool
  commands : List Str
  rewriteMap : List (Str × Str)

/-- Outcome of one pass of the hook over a candidate command. -/
inductive Decision where
  | Unchanged : Decision
  | Rewritten : Str → Decision
deriving DecidableEq

/-- Guard chain of the `tool.execute.before` hook.  When the plugin is
disabled it registers no hook at all, so every command passes through
unchanged; otherwise the hook returns early (command unchanged) on a
falsy command string, a command already starting with `"rtk "`, a
non-simple command, or an unmatched command, and rewrites the trimmed
command in the remaining case. -/
def decide (command : Str) (cfg : RtkConfig) : Decision :=
  if !cfg.enabled then .Unchanged
  else if command == [] then .Unchanged
  else if startsWith (trim command) rtkSpace then .Unchanged
  else if !isSimpleCommand (trim command) then .Unchanged
  else if !shouldWrap (trim command) cfg.commands then .Unchanged
  else .Rewritten (rewriteCommand (trim command) cfg.rewriteMap)

/-- Substring containment agrees with the `IsInfix` relation. -/
theorem containsSub_iff {s pat : Str} : containsSub s pat = true ↔ pat <:+: s := by
  induction s with
  | nil =>
    simp only [containsSub, List.isEmpty_iff, List.infix_nil]
  | cons c rest ih =>
    simp only [containsSub, Bool.or_eq_true, List.isPrefixOf_iff_prefix, ih]
    exact ( List.infix_cons_iff).symm

/-- Left-trimming is idempotent. -/
theorem trimLeft_idem (s : Str) : trimLeft (trimLeft s) = trimLeft s :=
  List.dropWhile_idempotent isWs s

/-- Right-trimming is idempotent. -/
theorem trimRight_idem (s : Str) : trimRight (trimRight s) = trimRight s := by
  unfold trimRight
  rw [List.reverse_reverse, List.dropWhile_idempotent]

/-- The head of a left-trimmed string is not whitespace. -/
theorem head_trimLeft (s : Str) (c : Char) (h : (trimLeft s).head? = some c) :
    isWs c = false := by
  have H := List.head?_dropWhile_not isWs s
  unfold trimLeft at h
  rw [h] at H
  exact H

/-- A string whose head is not whitespace is unchanged by left-trimming. -/
theorem trimLeft_eq_self (s : Str) (h : ∀ c, s.head? = some c → isWs c = false) :
    trimLeft s = s := by
  cases s with
  | nil => rfl
  | cons c rest =>
    unfold trimLeft
    rw [List.dropWhile_cons, h c rfl]
    simp

/-- Right-trimming yields an initial segment of the string. -/
theorem trimRight_pre (s : Str) : trimRight s <+: s := by
  have h := List.reverse_prefix.mpr (List.dropWhile_suffix (l := s.reverse) isWs)
  rwa [List.reverse_reverse] at h

/-- A fully trimmed string has no leading whitespace left. -/
theorem trimLeft_trim (s : Str) : trimLeft (trim s) = trim s := by
  apply trimLeft_eq_self
  intro c hc
  obtain ⟨w, hw⟩ := trimRight_pre (trimLeft s)
  have hw2 : trim s ++ w = trimLeft s := hw
  cases htr : trim s with
  | nil => rw [htr] at hc; cases hc
  | cons c0 t =>
    rw [htr] at hc
    simp only [List.head?_cons, Option.some.injEq] at hc
    subst hc
    rw [htr] at hw2
    exact head_trimLeft s c0 (by rw [← hw2]; rfl)

/-- Source `trim` is idempotent. -/
theorem trim_idem (s : Str) : trim (trim s) = trim s := by
  have h1 : trim (trim s) = trimRight (trimLeft (trim s)) := rfl
  rw [h1, trimLeft_trim s]
  have h2 : trim s = trimRight (trimLeft s) := rfl
  rw [h2, trimRight_idem]

/-- Replacing the first occurrence of a pattern that sits at the very
start of the string splices the replacement in front of the tail. -/
theorem replaceFirst_of_pre (l pat rep : Str) (h : pat <+: l) :
    replaceFirst l pat rep = rep ++ l.drop pat.length := by
  cases l with
  | nil =>
    have hp : pat = [] := by simpa using h
    subst hp
    simp [replaceFirst]
  | cons c rest =>
    have hb : pat.isPrefixOf (c :: rest) = true := List.isPrefixOf_iff_prefix.mpr h
    simp [replaceFirst, hb]

/-- The first word of a string is an initial segment of it. -/
theorem firstWord_pre (s : Str) : firstWord s <+: s :=
  List.takeWhile_prefix _

/-- A present key of the rewrite map is realised by some entry, and
`mapGet` returns that entry's value. -/
theorem mapHasKey_exists (m : List (Str × Str)) (k : Str) (h : mapHasKey m k = true) :
    ∃ kv, kv ∈ m ∧ kv.1 = k ∧ mapGet m k = kv.2 := by
  unfold mapHasKey at h
  rw [List.any_eq_true] at h
  obtain ⟨kv0, hmem, hk⟩ := h
  have hsome : (m.find? fun kv => kv.1 == k).isSome := by
    rw [List.find?_isSome]
    exact ⟨kv0, hmem, hk⟩
  obtain ⟨kv, hfind⟩ := Option.isSome_iff_exists.mp hsome
  refine ⟨kv, List.mem_of_find?_eq_some hfind, ?_, ?_⟩
  · simpa using List.find?_some hfind
  · unfold mapGet
    rw [hfind]

/-- No pattern of a list of non-empty patterns matches the empty command. -/
theorem shouldWrap_nil (ps : List Str) (hp : ∀ p ∈ ps, p ≠ []) :
    shouldWrap [] ps = false := by
  unfold shouldWrap
  rw [List.any_eq_false]
  intro p hmem
  have htr : trim ([] : Str) = [] := rfl
  simp only [htr, Bool.or_eq_true, not_or, startsWith, List.isPrefixOf_iff_prefix,
    List.prefix_nil, beq_iff_eq]
  refine ⟨fun he => hp p hmem he.symm, fun he => ?_⟩
  rcases List.append_eq_nil.mp he with ⟨-, h2⟩
  cases h2

/-- The bare token `rtk` matches no pattern list that does not contain it:
an exact match would need the pattern `rtk` itself, and a word-boundary
match would need a space character inside `rtk`. -/
theorem shouldWrap_rtk_false (ps : List Str) (hp : "rtk".data ∉ ps) :
    shouldWrap "rtk".data ps = false := by
  unfold shouldWrap
  rw [List.any_eq_false]
  intro p hmem
  have htr : trim ("rtk".data) = "rtk".data := rfl
  simp only [htr, Bool.or_eq_true, not_or, startsWith, List.isPrefixOf_iff_prefix, beq_iff_eq]
  constructor
  · intro he
    subst he
    exact hp hmem
  · intro he
    have hsp : ' ' ∈ "rtk".data := he.subset (by simp)
    exact absurd hsp (by decide)

/-- Trimming a string that begins with `"rtk "` either leaves a string
still beginning with `"rtk "`, or collapses the part after the token and
yields exactly `"rtk"`. -/
theorem trim_rtkSpace_append (t : Str) :
    trim (rtkSpace ++ t) = "rtk".data ∨ rtkSpace <+: trim (rtkSpace ++ t) := by
  have hleft : trimLeft (rtkSpace ++ t) = rtkSpace ++ t := by
    apply trimLeft_eq_self
    intro c hc
    have hh : (rtkSpace ++ t).head? = some 'r' := rfl
    rw [hh] at hc
    cases hc
    decide
  have h2 : trim (rtkSpace ++ t) = trimRight (rtkSpace ++ t) := by
    show trimRight (trimLeft (rtkSpace ++ t)) = _
    rw [hleft]
  rw [h2]
  unfold trimRight
  rw [List.reverse_append, List.dropWhile_append]
  by_cases hcase : (t.reverse.dropWhile isWs).isEmpty
  · left
    rw [if_pos hcase]
    decide
  · right
    rw [if_neg hcase, List.reverse_append]
    have hr : (rtkSpace.reverse).reverse = rtkSpace := List.reverse_reverse _
    rw [hr]
    exact ⟨_, rfl⟩

/-- Whenever every value of the rewrite map starts with `"rtk "`, so does
the output of `rewriteCommand`. -/
theorem rewriteCommand_rtk_pre (c : Str) (m : List (Str × Str))
    (hvals : ∀ kv ∈ m, rtkSpace <+: kv.2) :
    rtkSpace <+: rewriteCommand c m := by
  unfold rewriteCommand
  by_cases hk : mapHasKey m (firstWord (trim c)) = true
  · rw [if_pos hk,
      replaceFirst_of_pre _ _ _ (firstWord_pre (trim c))]
    obtain ⟨kv, hmem, -, hget⟩ := mapHasKey_exists m (firstWord (trim c)) hk
    rw [hget]
    exact (hvals kv hmem).trans ⟨_, rfl⟩
  · rw [if_neg hk]
    exact ⟨_, rfl⟩

/-- Characterisation of the safety regex: it fires exactly on commands
containing a pipe, a semicolon, or one of the sequences the source tests
for. -/
theorem isSimpleCommand_eq_false_iff (c : Str) :
    isSimpleCommand c = false ↔
      '|' ∈ c ∨ ';' ∈ c ∨ "&&".data <:+: c ∨ "||".data <:+: c ∨ "<<".data <:+: c := by
  constructor
  · intro h
    have h1x : (!(c.contains '|' || c.contains ';' || containsSub c "&&".data ||
        containsSub c "||".data || containsSub c "<<".data)) = false := h
    have hgen : ∀ b : Bool, (!b) = false → b = true := by decide
    have h2 := hgen _ h1x
    simp only [Bool.or_eq_true, List.contains, List.elem_eq_mem, decide_eq_true_eq,
      containsSub_iff] at h2
    tauto
  · intro h
    have h2 : (c.contains '|' || c.contains ';' || containsSub c "&&".data ||
        containsSub c "||".data || containsSub c "<<".data) = true := by
      simp only [Bool.or_eq_true, List.contains, List.elem_eq_mem, decide_eq_true_eq,
        containsSub_iff]
      tauto
    unfold isSimpleCommand
    rw [h2]
    rfl

/-- A disabled plugin registers no hook, so every command is unchanged. -/
theorem decide_of_disabled (c : Str) (cfg : RtkConfig) (h : cfg.enabled = false) :
    decide c cfg = .Unchanged := by
  unfold decide
  rw [if_pos (by simp [h])]

/-- Inversion of the guard chain: a rewrite can only come out of the final
branch, with the plugin enabled. -/
theorem decide_eq_rewritten {c : Str} {cfg : RtkConfig} {r : Str}
    (h : decide c cfg = .Rewritten r) :
    cfg.enabled = true ∧ r = rewriteCommand (trim c) cfg.rewriteMap := by
  unfold decide at h
  split at h
  · exact Decision.noConfusion h
  · rename_i hen
    split at h
    · exact Decision.noConfusion h
    · split at h
      · exact Decision.noConfusion h
      · split at h
        · exact Decision.noConfusion h
        · split at h
          · exact Decision.noConfusion h
          · refine ⟨by simpa using hen, ?_⟩
            injection h with h2
            exact h2.symm

/-- C1: for every command whose trimmed form has its head token among the
keys of the alias map, the rewrite replaces only the leading-token
occurrence of the head: the output is the alias value followed verbatim
by the remainder of the trimmed command (everything after the head
token), even when the head token recurs later in the command. -/
theorem c1_alias_precedence (c : Str) (m : List (Str × Str))
    (h : mapHasKey m (firstWord (trim c)) = true) :
    rewriteCommand c m =
      mapGet m (firstWord (trim c)) ++ (trim c).drop (firstWord (trim c)).length := by
  unfold rewriteCommand
  rw [if_pos h, replaceFirst_of_pre _ _ _ (firstWord_pre (trim c))]

/-- Witness for C1 at the example of the claim: rewriting `cat cat.txt`
under the alias `cat` to `rtk read` yields `rtk read cat.txt`, leaving
the later occurrence `cat.txt` intact. -/
theorem c1_witness :
    mapHasKey [("cat".data, "rtk read".data)] (firstWord (trim "cat cat.txt".data)) = true ∧
    rewriteCommand "cat cat.txt".data [("cat".data, "rtk read".data)] =
      "rtk read cat.txt".data :=
  ⟨by decide,
    (c1_alias_precedence "cat cat.txt".data [("cat".data, "rtk read".data)] (by decide)).trans
      (by decide)⟩

/-- C2: the matcher on a single pattern `p` returns true exactly when the
trimmed command equals `p` or starts with `p` immediately followed by a
space, together with the four concrete instances named by the claim. -/
theorem c2_word_boundary :
    (∀ (p c : Str), shouldWrap c [p] = true ↔ trim c = p ∨ (p ++ [' ']) <+: trim c) ∧
    shouldWrap "lsof".data ["ls".data] = false ∧
    shouldWrap "ls -la".data ["ls".data] = true ∧
    shouldWrap "git diff".data ["git status".data] = false ∧
    shouldWrap "git status -s".data ["git status".data] = true := by
  refine ⟨fun p c => ?_, by decide, by decide, by decide, by decide⟩
  simp [shouldWrap, startsWith]

/-- C3: the safety classifier rejects exactly the commands containing a
pipe character, a semicolon, or one of the sequences `&&`, `||`, `<<`,
and accepts all others, in particular `git status -s`. -/
theorem c3_safety :
    (∀ c : Str, isSimpleCommand c = false ↔
      ('|' ∈ c ∨ "&&".data <:+: c ∨ "||".data <:+: c ∨ ';' ∈ c ∨ "<<".data <:+: c)) ∧
    isSimpleCommand "git status -s".data = true := by
  refine ⟨fun c => ?_, by decide⟩
  rw [isSimpleCommand_eq_false_iff]
  tauto

/-- C6: a disabled configuration forces `Unchanged` for every command,
regardless of the patterns or the alias map. -/
theorem c6_disabled_kill_switch (c : Str) (cfg : RtkConfig) (h : cfg.enabled = false) :
    decide c cfg = .Unchanged :=
  decide_of_disabled c cfg h

/-- Witness for C6 at a command that would otherwise be rewritten. -/
theorem c6_witness :
    (RtkConfig.mk false ["git status".data] []).enabled = false ∧
    decide "git status".data ⟨false, ["git status".data], []⟩ = .Unchanged :=
  ⟨rfl, c6_disabled_kill_switch "git status".data ⟨false, ["git status".data], []⟩ rfl⟩

/-- C10: a command containing an ampersand but none of the sequences the
safety regex looks for is still classified as simple: a lone `&` is not
treated as a composition operator. -/
theorem c10_lone_ampersand (c : Str) (_hand : '&' ∈ c)
    (h1 : ¬ "&&".data <:+: c) (h2 : '|' ∉ c) (h3 : ';' ∉ c)
    (h4 : ¬ "<<".data <:+: c) :
    isSimpleCommand c = true := by
  have h5 : ¬ "||".data <:+: c := fun h => h2 (h.subset (by decide))
  cases hb : isSimpleCommand c with
  | false =>
    rw [isSimpleCommand_eq_false_iff] at hb
    rcases hb with h | h | h | h | h
    · exact absurd h h2
    · exact absurd h h3
    · exact absurd h h1
    · exact absurd h h5
    · exact absurd h h4
  | true => rfl

/-- Witness for C10 at the background job `sleep 5 &`. -/
theorem c10_witness :
    ('&' ∈ "sleep 5 &".data) ∧ (¬ "&&".data <:+: "sleep 5 &".data) ∧
    ('|' ∉ "sleep 5 &".data) ∧ (';' ∉ "sleep 5 &".data) ∧
    (¬ "<<".data <:+: "sleep 5 &".data) ∧
    isSimpleCommand "sleep 5 &".data = true :=
  ⟨by decide, by decide, by decide, by decide, by decide,
    c10_lone_ampersand "sleep 5 &".data (by decide) (by decide) (by decide) (by decide)
      (by decide)⟩

/-- C4 fails as stated at the empty command with an empty pattern: all of
the claim's hypotheses hold (enabled configuration, trimmed command
matching a pattern, simple, not starting with the compressor token plus
space, head token not an alias key), yet the hook returns early on the
falsy command string and leaves it unchanged instead of producing the
rewrite the claim demands. -/
theorem c4_counterexample :
    (RtkConfig.mk true [[]] []).enabled = true ∧
    shouldWrap (trim ([] : Str)) [[]] = true ∧
    isSimpleCommand (trim ([] : Str)) = true ∧
    startsWith (trim ([] : Str)) rtkSpace = false ∧
    mapHasKey [] (firstWord (trim ([] : Str))) = false ∧
    decide ([] : Str) ⟨true, [[]], []⟩ = .Unchanged ∧
    decide ([] : Str) ⟨true, [[]], []⟩ ≠ .Rewritten (rtkSpace ++ trim ([] : Str)) := by
  decide

/-- C4 amended: the fallback-prefix property holds for every non-empty
command: if the configuration is enabled, the trimmed command matches a
pattern, is classified simple, does not already start with `"rtk "`, and
its head token is not an alias key, the decision is `Rewritten` of the
compressor token, a space, and the trimmed command.  Non-emptiness is
what the counterexample forces; it is implied by the spec's invariant
that pattern entries are non-empty. -/
theorem c4_fallback (c : Str) (cfg : RtkConfig)
    (hne : c ≠ [])
    (hen : cfg.enabled = true)
    (hmatch : shouldWrap (trim c) cfg.commands = true)
    (hsimple : isSimpleCommand (trim c) = true)
    (hrtk : startsWith (trim c) rtkSpace = false)
    (hkey : mapHasKey cfg.rewriteMap (firstWord (trim c)) = false) :
    decide c cfg = .Rewritten (rtkSpace ++ trim c) := by
  have hrw : rewriteCommand (trim c) cfg.rewriteMap = rtkSpace ++ trim c := by
    unfold rewriteCommand
    rw [trim_idem, if_neg (by simp [hkey])]
  unfold decide
  rw [if_neg (by simp [hen]), if_neg (by simp [hne]), if_neg (by simp [hrtk]),
    if_neg (by simp [hsimple]), if_neg (by simp [hmatch]), hrw]

/-- Witness for the amended C4 at the spec's example `git status -s`. -/
theorem c4_witness :
    ("git status -s".data ≠ ([] : Str)) ∧
    (RtkConfig.mk true ["git status".data] []).enabled = true ∧
    shouldWrap (trim "git status -s".data) ["git status".data] = true ∧
    isSimpleCommand (trim "git status -s".data) = true ∧
    startsWith (trim "git status -s".data) rtkSpace = false ∧
    mapHasKey [] (firstWord (trim "git status -s".data)) = false ∧
    decide "git status -s".data ⟨true, ["git status".data], []⟩ =
      .Rewritten "rtk git status -s".data :=
  ⟨by decide, rfl, by decide, by decide, by decide, by decide,
    (c4_fallback "git status -s".data ⟨true, ["git status".data], []⟩ (by decide) rfl
      (by decide) (by decide) (by decide) (by decide)).trans (by decide)⟩

/-- C5 fails as stated: the command `rtk` has the compressor token as its
head token, yet under an enabled configuration whose pattern list
contains `rtk` the decision is a rewrite to `rtk rtk` (double wrapping),
not `Unchanged` — the code only guards against commands starting with
`rtk` followed by a space. -/
theorem c5_counterexample :
    firstWord (trim "rtk".data) = "rtk".data ∧
    (RtkConfig.mk true ["rtk".data] []).enabled = true ∧
    decide "rtk".data ⟨true, ["rtk".data], []⟩ = .Rewritten "rtk rtk".data ∧
    decide "rtk".data ⟨true, ["rtk".data], []⟩ ≠ .Unchanged := by
  decide

/-- C5 amended: for every command whose trimmed form starts with the
compressor token followed by a space — exactly the guard the code
implements — and every enabled configuration, the decision is
`Unchanged`. -/
theorem c5_idempotence_guard (c : Str) (cfg : RtkConfig)
    (hen : cfg.enabled = true) (h : rtkSpace <+: trim c) :
    decide c cfg = .Unchanged := by
  have hc : c ≠ [] := by
    intro h0
    rw [h0] at h
    exact absurd h (by decide)
  unfold decide
  rw [if_neg (by simp [hen]), if_neg (by simp [hc]),
    if_pos (show startsWith (trim c) rtkSpace = true from List.isPrefixOf_iff_prefix.mpr h)]

/-- Witness for the amended C5 at the concrete command of the claim. -/
theorem c5_witness :
    (RtkConfig.mk true ["git status".data] []).enabled = true ∧
    (rtkSpace <+: trim "rtk git status".data) ∧
    decide "rtk git status".data ⟨true, ["git status".data], []⟩ = .Unchanged :=
  ⟨rfl, by decide,
    c5_idempotence_guard "rtk git status".data ⟨true, ["git status".data], []⟩ rfl (by decide)⟩

/-- C7: a command that trims to the empty string is left unchanged under
every configuration whose patterns are non-empty trimmed strings; the
decision function is total, so no failure is possible on such inputs. -/
theorem c7_empty_command (c : Str) (cfg : RtkConfig)
    (hc : trim c = [])
    (hp : ∀ p ∈ cfg.commands, p ≠ [] ∧ trim p = p) :
    decide c cfg = .Unchanged := by
  by_cases hen : cfg.enabled = true
  · by_cases hnil : c = []
    · unfold decide
      rw [if_neg (by simp [hen]), if_pos (by simp [hnil])]
    · have hsw : shouldWrap (trim c) cfg.commands = false := by
        rw [hc]
        exact shouldWrap_nil cfg.commands fun p hm => (hp p hm).1
      unfold decide
      rw [if_neg (by simp [hen]), if_neg (by simp [hnil]),
        if_neg (by rw [hc]; exact (by decide)),
        if_neg (by rw [hc]; exact (by decide)),
        if_pos (by rw [hsw]; rfl)]
  · exact decide_of_disabled c cfg (by simpa using hen)

/-- Witness for C7 at a whitespace-only command and the default-like
configuration. -/
theorem c7_witness :
    trim "   ".data = [] ∧
    (∀ p ∈ (RtkConfig.mk true ["git status".data, "ls".data]
      [("cat".data, "rtk read".data)]).commands, p ≠ [] ∧ trim p = p) ∧
    decide "   ".data ⟨true, ["git status".data, "ls".data],
      [("cat".data, "rtk read".data)]⟩ = .Unchanged :=
  ⟨by decide, by decide,
    c7_empty_command "   ".data ⟨true, ["git status".data, "ls".data],
      [("cat".data, "rtk read".data)]⟩ (by decide) (by decide)⟩

/-- C8: the matcher is invariant under permutation of the pattern list —
pattern order has no observable effect on the boolean outcome. -/
theorem c8_pattern_order (c : Str) (ps qs : List Str) (h : ps.Perm qs) :
    shouldWrap c ps = shouldWrap c qs := by
  unfold shouldWrap
  rw [Bool.eq_iff_iff, List.any_eq_true, List.any_eq_true]
  constructor
  · rintro ⟨x, hx, hfx⟩
    exact ⟨x, h.mem_iff.mp hx, hfx⟩
  · rintro ⟨x, hx, hfx⟩
    exact ⟨x, h.mem_iff.mpr hx, hfx⟩

/-- Witness for C8 at a two-element pattern list and its transposition. -/
theorem c8_witness :
    (["cat".data, "ls".data] : List Str).Perm ["ls".data, "cat".data] ∧
    shouldWrap "ls -la".data ["cat".data, "ls".data] =
      shouldWrap "ls -la".data ["ls".data, "cat".data] :=
  ⟨List.Perm.swap "ls".data "cat".data [],
    c8_pattern_order "ls -la".data _ _ (List.Perm.swap "ls".data "cat".data [])⟩

/-- C9 fails as stated: in the enabled configuration with patterns `x`
and `rtk` and the alias `x` mapped to `"rtk "` (a value starting with
the compressor token and a space, as the claim requires), the command
`x` is rewritten to `"rtk "`, which does start with `"rtk "`; but a
second pass trims it to the bare token `rtk`, which matches the
configured pattern `rtk` and is wrapped again into `rtk rtk` instead of
being left unchanged. -/
theorem c9_counterexample :
    (∀ kv ∈ ([("x".data, "rtk ".data)] : List (Str × Str)), rtkSpace <+: kv.2) ∧
    decide "x".data ⟨true, ["x".data, "rtk".data], [("x".data, "rtk ".data)]⟩ =
      .Rewritten "rtk ".data ∧
    decide "rtk ".data ⟨true, ["x".data, "rtk".data], [("x".data, "rtk ".data)]⟩ =
      .Rewritten "rtk rtk".data ∧
    decide "rtk ".data ⟨true, ["x".data, "rtk".data], [("x".data, "rtk ".data)]⟩ ≠
      .Unchanged := by
  decide

/-- C9 amended: under any configuration in which every alias value starts
with `"rtk "` and the bare token `rtk` is not itself a configured
pattern — both hold for the default configuration — every rewritten
output starts with `"rtk "`, and a second pass over that output returns
`Unchanged`. -/
theorem c9_stable_on_output (cfg : RtkConfig)
    (hvals : ∀ kv ∈ cfg.rewriteMap, rtkSpace <+: kv.2)
    (hpat : "rtk".data ∉ cfg.commands)
    (c r : Str) (h : decide c cfg = .Rewritten r) :
    rtkSpace <+: r ∧ decide r cfg = .Unchanged := by
  obtain ⟨hen, hr⟩ := decide_eq_rewritten h
  have hpre : rtkSpace <+: r := by
    rw [hr]
    exact rewriteCommand_rtk_pre (trim c) cfg.rewriteMap hvals
  refine ⟨hpre, ?_⟩
  obtain ⟨t, ht⟩ := hpre
  have hrne : r ≠ [] := by
    intro h0
    rw [h0] at ht
    exact absurd (List.append_eq_nil.mp ht).1 (by decide)
  rcases trim_rtkSpace_append t with hcase | hcase
  · rw [ht] at hcase
    unfold decide
    rw [if_neg (by simp [hen]), if_neg (by simp [hrne]), hcase,
      if_neg (by decide), if_neg (by decide),
      if_pos (by rw [shouldWrap_rtk_false cfg.commands hpat]; rfl)]
  · rw [ht] at hcase
    unfold decide
    rw [if_neg (by simp [hen]), if_neg (by simp [hrne]),
      if_pos (show startsWith (trim r) rtkSpace = true from
        List.isPrefixOf_iff_prefix.mpr hcase)]

/-- Witness for the amended C9 under a default-like configuration. -/
theorem c9_witness :
    (∀ kv ∈ ([("cat".data, "rtk read".data)] : List (Str × Str)), rtkSpace <+: kv.2) ∧
    ("rtk".data ∉ (["git status".data, "cat".data] : List Str)) ∧
    decide "git status".data ⟨true, ["git status".data, "cat".data],
      [("cat".data, "rtk read".data)]⟩ = .Rewritten "rtk git status".data ∧
    (rtkSpace <+: "rtk git status".data ∧
      decide "rtk git status".data ⟨true, ["git status".data, "cat".data],
        [("cat".data, "rtk read".data)]⟩ = .Unchanged) :=
  ⟨by decide, by decide, by decide,
    c9_stable_on_output _ (by decide) (by decide) "git status".data "rtk git status".data
      (by decide)⟩

end Rtk
